import Mathlib

/-!
Verification development for the project ledger of dotconfig-hub
(src/dotconfig_hub/project_mapping.py).

The ledger is a YAML-backed mapping from normalized project-path strings to
entries holding an environment-set list and a last-synced ISO-8601 timestamp.
We shallowly embed the ProjectMapping class:

* Filesystem paths are modelled as lists of path components over a symlink-free
  filesystem whose component lists are already canonical (no "." or ".."
  segments), with an ambient environment giving the resolved home directory and
  the current working directory.  pathlib.Path.resolve on an absolute path is
  then the identity on components, and on a relative path prefixes the cwd;
  note that resolve does NOT expand a leading "~", which pathlib treats as an
  ordinary relative component.
* Python dicts (insertion-ordered, unique keys) are association lists with
  update-in-place insertion.
* ISO-8601 timestamp strings are modelled by the type TimeStr: the constructor
  TimeStr.valid t stands for the isoformat output of the datetime whose
  epoch value is t (datetime.fromisoformat succeeds on exactly these and
  timestamp() returns t), and TimeStr.invalid s stands for a string on which
  datetime.fromisoformat raises.  datetime.now().isoformat() at clock value
  now is TimeStr.valid now; clocks are passed explicitly.
* The YAML backing file is modelled by FileState, classifying the parse
  results that _load_mapping distinguishes.  Top-level mapping keys other
  than "projects" are outside the model (no claim mentions them).
-/

/-- Ambient filesystem environment: the resolved home directory and the
current working directory, both as absolute component lists. -/
structure FS where
  home : List String
  cwd : List String
deriving DecidableEq, Repr

/-- A path as supplied to the ProjectMapping API: either absolute (component
list after the root) or relative to the current working directory.  A
home-alias spelling such as "~/p" is, per pathlib, the relative path with
first component "~". -/
inductive PPath where
  | absolute (comps : List String)
  | relative (comps : List String)
deriving DecidableEq, Repr

/-- pathlib.Path.resolve over the modelled filesystem: absolute paths are
already canonical; relative paths are resolved against the cwd. -/
def PPath.resolve (env : FS) : PPath → List String
  | .absolute cs => cs
  | .relative cs => env.cwd ++ cs

/-- str of an absolute pathlib.Path with the given components. -/
def renderAbs (cs : List String) : String :=
  match cs with
  | [] => "/"
  | _ => String.join (cs.map (fun c => "/" ++ c))

/-- str of the pathlib.Path "~" extended by the given components, as built by
the expression str of "~" / relative part in _normalize_project_path. -/
def renderTilde (cs : List String) : String :=
  "~" ++ String.join (cs.map (fun c => "/" ++ c))

/-- ProjectMapping._normalize_project_path: resolve the input, and if the
resolved absolute path is relative to the home directory store it under the
home-alias marker, otherwise store the absolute form. -/
def normalizeProjectPath (env : FS) (p : PPath) : String :=
  let abs_path := p.resolve env
  if env.home.isPrefixOf abs_path then
    renderTilde (abs_path.drop env.home.length)
  else
    renderAbs abs_path

/-- A last-synced timestamp string: either the isoformat rendering of the
datetime with epoch value t, or a string fromisoformat rejects. -/
inductive TimeStr where
  | valid (t : Int)
  | invalid (s : String)
deriving DecidableEq, Repr

/-- datetime.fromisoformat followed by timestamp(), with parse failure as
none (the source catches ValueError and TypeError). -/
def parseTime : TimeStr → Option Int
  | .valid t => some t
  | .invalid _ => none

/-- One ledger entry value: the environment_sets and last_synced fields, each
possibly absent (a hand-edited backing file may omit either). -/
structure Entry where
  environment_sets : Option (List String)
  last_synced : Option TimeStr
deriving DecidableEq, Repr

/-- Python dict lookup (dict.get) on an association list. -/
def dget {β : Type} (k : String) : List (String × β) → Option β
  | [] => none
  | (k1, v) :: rest => if k1 = k then some v else dget k rest

/-- Python dict assignment d[k] = v: update in place preserving position if
the key exists, otherwise append. -/
def dinsert {β : Type} (k : String) (v : β) : List (String × β) → List (String × β)
  | [] => [(k, v)]
  | (k1, v1) :: rest => if k1 = k then (k, v) :: rest else (k1, v1) :: dinsert k v rest

/-- Python del d[k] (for a key known present; identity when absent). -/
def derase {β : Type} (k : String) : List (String × β) → List (String × β)
  | [] => []
  | (k1, v1) :: rest => if k1 = k then rest else (k1, v1) :: derase k rest

/-- In-place update of the value at a key, identity when the key is absent. -/
def dmodify {β : Type} (k : String) (f : β → β) : List (String × β) → List (String × β)
  | [] => []
  | (k1, v1) :: rest => if k1 = k then (k1, f v1) :: rest else (k1, v1) :: dmodify k f rest

/-- The in-memory ledger document after load: the value of the "projects" key
of mapping_data, a dict of entries keyed by normalized path strings. -/
structure Ledger where
  projects : List (String × Entry)
deriving DecidableEq, Repr

/-- ProjectMapping.add_project: insert or overwrite the entry at the
normalized path, stamping last_synced with the current time. -/
def addProject (env : FS) (now : Int) (project_path : PPath)
    (environment_sets : List String) (L : Ledger) : Ledger :=
  let normalized_path := normalizeProjectPath env project_path
  { projects := dinsert normalized_path
      { environment_sets := some environment_sets,
        last_synced := some (TimeStr.valid now) } L.projects }

/-- ProjectMapping.remove_project: delete the entry at the normalized path if
present, otherwise no-op. -/
def removeProject (env : FS) (project_path : PPath) (L : Ledger) : Ledger :=
  { projects := derase (normalizeProjectPath env project_path) L.projects }

/-- ProjectMapping.get_project_info: dict.get at the normalized path. -/
def getProjectInfo (env : FS) (project_path : PPath) (L : Ledger) : Option Entry :=
  dget (normalizeProjectPath env project_path) L.projects

/-- ProjectMapping.get_projects_by_environment_set: the entries whose
environment_sets list (defaulted to empty when absent) contains the name,
each annotated with its path (modelled as the key paired with the entry). -/
def getProjectsByEnvironmentSet (env_set : String) (L : Ledger) :
    List (String × Entry) :=
  L.projects.filter (fun kv => (kv.2.environment_sets.getD []).contains env_set)

/-- ProjectMapping.get_all_projects. -/
def getAllProjects (L : Ledger) : List (String × Entry) :=
  L.projects

/-- One iteration of the inner loop of get_environment_set_usage:
usage[env_set] = usage.get(env_set, 0) + 1. -/
def bump (k : String) : List (String × Nat) → List (String × Nat)
  | [] => [(k, 1)]
  | (k1, n) :: rest => if k1 = k then (k1, n + 1) :: rest else (k1, n) :: bump k rest

/-- The inner loop of get_environment_set_usage over one entry's
environment_sets list. -/
def bumpAll (names : List String) (u : List (String × Nat)) : List (String × Nat) :=
  names.foldl (fun u1 e => bump e u1) u

/-- ProjectMapping.get_environment_set_usage: fold the bump loop over every
entry, defaulting a missing environment_sets field to the empty list. -/
def getEnvironmentSetUsage (L : Ledger) : List (String × Nat) :=
  L.projects.foldl (fun u kv => bumpAll (kv.2.environment_sets.getD []) u) []

/-- ProjectMapping.update_last_synced: restamp last_synced if the entry
exists, no-op otherwise. -/
def updateLastSynced (env : FS) (now : Int) (project_path : PPath) (L : Ledger) : Ledger :=
  { projects := dmodify (normalizeProjectPath env project_path)
      (fun e => { e with last_synced := some (TimeStr.valid now) }) L.projects }

/-- Path.expanduser on a stored key string: a leading "~" component is
replaced by the home directory.  Keys written by this program are either
absolute or start with the home-alias marker; named-user forms are outside
the model. -/
def expanduser (home : List String) (s : String) : String :=
  if s = "~" then renderAbs home
  else if s.data.take 2 = ['~', '/'] then renderAbs home ++ String.mk (s.data.drop 1)
  else s

/-- ProjectMapping.cleanup_missing_projects: iterate over a snapshot of the
keys, delete every entry whose expanded path does not exist and accumulate
its key.  Since dict keys are unique, the loop keeps exactly the entries
whose expanded key exists and returns the other keys in iteration order,
which is the pair of filters below. -/
def cleanupMissingProjects (home : List String) (fsExists : String → Bool)
    (L : Ledger) : Ledger × List String :=
  ({ projects := L.projects.filter (fun kv => fsExists (expanduser home kv.1)) },
   (L.projects.map Prod.fst).filter (fun k => !fsExists (expanduser home k)))

/-- The classification applied to one entry by find_projects_needing_sync:
absent timestamp, unparsable timestamp, or timestamp strictly before the
cutoff all mean the project needs sync.  An empty-string timestamp is falsy
in the source and lands in the absent branch; it is TimeStr.invalid "" here
and lands in the unparsable branch, with the same outcome. -/
def needsSyncB (cutoff : Int) (e : Entry) : Bool :=
  match e.last_synced with
  | none => true
  | some ts =>
    match parseTime ts with
    | none => true
    | some t => decide (t < cutoff)

/-- ProjectMapping.find_projects_needing_sync: cutoff = now - hours * 3600
seconds; return the entries classified as needing sync, each annotated with
its path. -/
def findProjectsNeedingSync (now : Int) (hours : Int) (L : Ledger) :
    List (String × Entry) :=
  let cutoff := now - hours * 3600
  L.projects.filter (fun kv => needsSyncB cutoff kv.2)

/-- Substring test on character lists: does pat occur as a prefix of some
suffix of s? -/
def containsSubAux (pat : List Char) : List Char → Bool
  | [] => pat.isPrefixOf []
  | c :: cs => pat.isPrefixOf (c :: cs) || containsSubAux pat cs

/-- Substring test, modelling the Python expression pat in s for strings. -/
def containsSub (s pat : String) : Bool :=
  containsSubAux pat.data s.data

/-- The states of the backing YAML file that _load_mapping distinguishes.
yaml.safe_load of a readable file yields one of: a falsy value (null, empty
string or collection, 0, false), a nonempty string, a nonempty list (the
flag records whether the string "projects" is one of its elements), or a
mapping (projectsVal is the value of its "projects" key when present; a
non-entry-shaped projects value is outside the model). -/
inductive FileState where
  | missing
  | unreadable
  | falsyValue
  | strValue (s : String)
  | listValue (hasProjectsElem : Bool)
  | mappingContent (projectsVal : Option (List (String × Entry)))
deriving DecidableEq, Repr

/-- The Python value _load_mapping returns: normally a dict with a "projects"
key, but a truthy non-mapping parse result that passes the containment test
is returned unchanged. -/
inductive PyValue where
  | mapping (projects : List (String × Entry))
  | str (s : String)
  | list (hasProjectsElem : Bool)
deriving DecidableEq, Repr

/-- Result of _load_mapping together with whether the warning line was
printed. -/
structure LoadOutcome where
  result : PyValue
  warned : Bool
deriving DecidableEq, Repr

/-- ProjectMapping._load_mapping.  A missing file yields the empty document.
Otherwise data = safe_load(f) or empty-dict; then if "projects" is not in
data (Python in: substring test on a string, element test on a list, key
test on a dict) the code assigns data["projects"] = empty-dict, which raises
TypeError on a non-dict; any exception from the try block (including an
unreadable file) is caught, a warning printed, and the empty document
returned.  A truthy non-mapping that passes the containment test is returned
as-is. -/
def loadMapping : FileState → LoadOutcome
  | .missing => { result := .mapping [], warned := false }
  | .unreadable => { result := .mapping [], warned := true }
  | .falsyValue => { result := .mapping [], warned := false }
  | .strValue s =>
    if containsSub s "projects" then { result := .str s, warned := false }
    else { result := .mapping [], warned := true }
  | .listValue hasProjectsElem =>
    if hasProjectsElem then { result := .list hasProjectsElem, warned := false }
    else { result := .mapping [], warned := true }
  | .mappingContent projectsVal =>
    { result := .mapping (projectsVal.getD []), warned := false }

/-- Result of save_mapping: the mutated in-memory document (save sorts the
projects dict in place), the file written, and whether the parent directory
of the backing file exists afterwards (mkdir parents exist_ok guarantees
it). -/
structure SaveResult where
  ledger : Ledger
  file : FileState
  parentDirExists : Bool
deriving Repr

/-- The key ordering save_mapping sorts by.  Python sorts the item tuples
lexicographically; dict keys are distinct, so the first components decide
every comparison and the sort is by key. -/
def keyLE (a b : String × Entry) : Prop :=
  a.1 ≤ b.1

instance : DecidableRel keyLE :=
  fun a b => inferInstanceAs (Decidable (a.1 ≤ b.1))

instance : IsTotal (String × Entry) keyLE :=
  ⟨fun a b => le_total a.1 b.1⟩

instance : IsTrans (String × Entry) keyLE :=
  ⟨fun _ _ _ h1 h2 => le_trans h1 h2⟩

/-- ProjectMapping.save_mapping: ensure the parent directory exists, sort the
projects dict by path, store the sorted dict back into the document, and
dump it to the file. -/
def saveMapping (_parentDirExisted : Bool) (L : Ledger) : SaveResult :=
  let sorted_projects := L.projects.insertionSort keyLE
  { ledger := { projects := sorted_projects },
    file := .mappingContent (some sorted_projects),
    parentDirExists := true }

/-- The mutating ledger operations, for stating the one-entry-per-path
invariant: add_project, remove_project, update_last_synced and
cleanup_missing_projects (get_project_info and the query operations do not
mutate).  cleanup carries the filesystem existence predicate in effect. -/
inductive LedgerOp where
  | add (now : Int) (p : PPath) (sets : List String)
  | remove (p : PPath)
  | touch (now : Int) (p : PPath)
  | cleanup (fsExists : String → Bool)

/-- Apply one mutating operation to the in-memory ledger. -/
def applyOp (env : FS) : LedgerOp → Ledger → Ledger
  | .add now p sets, L => addProject env now p sets L
  | .remove p, L => removeProject env p L
  | .touch now p, L => updateLastSynced env now p L
  | .cleanup fsExists, L => (cleanupMissingProjects env.home fsExists L).1

/-- Apply a sequence of mutating operations in order. -/
def applyOps (env : FS) (ops : List LedgerOp) (L : Ledger) : Ledger :=
  ops.foldl (fun L1 op => applyOp env op L1) L

/-! ### Association-list lemmas -/

theorem dget_dinsert_self {β : Type} (k : String) (v : β) (d : List (String × β)) :
    dget k (dinsert k v d) = some v := by
  induction d with
  | nil => simp [dget, dinsert]
  | cons hd tl ih =>
    obtain ⟨k1, v1⟩ := hd
    by_cases h : k1 = k
    · simp [dinsert, h, dget]
    · simp [dinsert, h, dget, ih]

theorem dget_dinsert_ne {β : Type} {k k2 : String} (v : β) (d : List (String × β))
    (h : k2 ≠ k) : dget k2 (dinsert k v d) = dget k2 d := by
  have h0 : ¬k = k2 := fun hh => h hh.symm
  induction d with
  | nil => simp [dget, dinsert, h0]
  | cons hd tl ih =>
    obtain ⟨k1, v1⟩ := hd
    by_cases h1 : k1 = k
    · subst h1
      simp [dinsert, dget, h0]
    · simp only [dinsert, if_neg h1, dget]
      by_cases h2 : k1 = k2
      · simp [h2]
      · simp [h2, ih]

theorem dinsert_dinsert_same {β : Type} (k : String) (v1 v2 : β)
    (d : List (String × β)) :
    dinsert k v2 (dinsert k v1 d) = dinsert k v2 d := by
  induction d with
  | nil => simp [dinsert]
  | cons hd tl ih =>
    obtain ⟨k1, w⟩ := hd
    by_cases h : k1 = k
    · simp [dinsert, h]
    · simp [dinsert, h, ih]

theorem keys_dinsert_mem {β : Type} {k : String} (v : β) {d : List (String × β)}
    (h : k ∈ d.map Prod.fst) :
    (dinsert k v d).map Prod.fst = d.map Prod.fst := by
  induction d with
  | nil => simp at h
  | cons hd tl ih =>
    obtain ⟨k1, v1⟩ := hd
    by_cases h1 : k1 = k
    · simp [dinsert, h1]
    · simp only [List.map_cons, List.mem_cons] at h
      rcases h with h | h


      · exact absurd h.symm h1
      · simp [dinsert, h1, ih h]

theorem keys_dinsert_not_mem {β : Type} {k : String} (v : β) {d : List (String × β)}
    (h : k ∉ d.map Prod.fst) :
    (dinsert k v d).map Prod.fst = d.map Prod.fst ++ [k] := by
  induction d with
  | nil => simp [dinsert]
  | cons hd tl ih =>
    obtain ⟨k1, v1⟩ := hd
    simp only [List.map_cons, List.mem_cons] at h
    push_neg at h
    have h1 : ¬k1 = k := fun hh => h.1 hh.symm
    simp [dinsert, h1, ih h.2]

theorem nodup_keys_dinsert {β : Type} (k : String) (v : β) {d : List (String × β)}
    (h : (d.map Prod.fst).Nodup) :
    ((dinsert k v d).map Prod.fst).Nodup := by
  by_cases hm : k ∈ d.map Prod.fst
  · rw [keys_dinsert_mem v hm]
    exact h
  · rw [keys_dinsert_not_mem v hm]
    refine List.Nodup.append h (List.nodup_singleton k) ?_
    intro a ha hak
    rw [List.mem_singleton] at hak
    exact hm (hak ▸ ha)

theorem count_keys_dinsert {β : Type} (k : String) (v : β) {d : List (String × β)}
    (h : (d.map Prod.fst).Nodup) :
    ((dinsert k v d).map Prod.fst).count k = 1 := by
  by_cases hm : k ∈ d.map Prod.fst
  · rw [keys_dinsert_mem v hm]
    exact List.count_eq_one_of_mem h hm
  · rw [keys_dinsert_not_mem v hm]
    rw [List.count_append]
    rw [List.count_eq_zero_of_not_mem hm]
    simp

theorem keys_derase_subset {β : Type} (k : String) (d : List (String × β)) :
    ((derase k d).map Prod.fst) ⊆ d.map Prod.fst := by
  induction d with
  | nil => simp [derase]
  | cons hd tl ih =>
    obtain ⟨k1, v1⟩ := hd
    by_cases h : k1 = k
    · simp only [derase, if_pos h, List.map_cons]
      exact fun a ha => List.mem_cons_of_mem _ ha
    · simp only [derase, if_neg h, List.map_cons]
      intro a ha
      rcases List.mem_cons.mp ha with h1 | h1
      · exact List.mem_cons.mpr (Or.inl h1)
      · exact List.mem_cons_of_mem _ (ih h1)

theorem nodup_keys_derase {β : Type} (k : String) {d : List (String × β)}
    (h : (d.map Prod.fst).Nodup) :
    ((derase k d).map Prod.fst).Nodup := by
  induction d with
  | nil => simp [derase]
  | cons hd tl ih =>
    obtain ⟨k1, v1⟩ := hd
    simp only [List.map_cons, List.nodup_cons] at h
    by_cases h1 : k1 = k
    · simp only [derase, if_pos h1]
      exact h.2
    · simp only [derase, if_neg h1, List.map_cons, List.nodup_cons]
      exact ⟨fun hm => h.1 (keys_derase_subset k tl hm), ih h.2⟩

theorem keys_dmodify {β : Type} (k : String) (f : β → β) (d : List (String × β)) :
    (dmodify k f d).map Prod.fst = d.map Prod.fst := by
  induction d with
  | nil => simp [dmodify]
  | cons hd tl ih =>
    obtain ⟨k1, v1⟩ := hd
    by_cases h : k1 = k
    · simp [dmodify, h]
    · simp [dmodify, h, ih]

theorem dget_eq_none_iff {β : Type} (k : String) (d : List (String × β)) :
    dget k d = none ↔ k ∉ d.map Prod.fst := by
  induction d with
  | nil => simp [dget]
  | cons hd tl ih =>
    obtain ⟨k1, v1⟩ := hd
    by_cases h : k1 = k
    · simp [dget, h]
    · have h2 : ¬k = k1 := fun hh => h hh.symm
      simp [dget, h, ih, h2]

theorem normalize_relative_eq_absolute (env : FS) (r : List String) :
    normalizeProjectPath env (.relative r)
      = normalizeProjectPath env (.absolute (env.cwd ++ r)) :=
  rfl

theorem dget_eq_some_iff_mem {β : Type} {k : String} {v : β} {d : List (String × β)}
    (h : (d.map Prod.fst).Nodup) :
    dget k d = some v ↔ (k, v) ∈ d := by
  induction d with
  | nil => simp [dget]
  | cons hd tl ih =>
    obtain ⟨k1, v1⟩ := hd
    simp only [List.map_cons, List.nodup_cons] at h
    by_cases h1 : k1 = k
    · subst h1
      simp only [dget, if_pos rfl, List.mem_cons]
      constructor
      · intro hv
        exact Or.inl (by simpa using hv.symm)
      · intro hv
        rcases hv with hv | hv
        · simp [Prod.ext_iff] at hv
          simp [hv]
        · exact absurd (List.mem_map_of_mem Prod.fst hv) h.1
    · simp only [dget, if_neg h1, List.mem_cons, ih h.2]
      constructor
      · exact fun hv => Or.inr hv
      · intro hv
        rcases hv with hv | hv
        · exact absurd (congrArg Prod.fst hv).symm h1
        · exact hv

theorem dget_eq_of_perm {β : Type} {l1 l2 : List (String × β)} (h : l1.Perm l2)
    (hnd : (l1.map Prod.fst).Nodup) (k : String) : dget k l1 = dget k l2 := by
  have hnd2 : (l2.map Prod.fst).Nodup := ((h.map Prod.fst).nodup_iff).mp hnd
  cases hv : dget k l1 with
  | none =>
    rw [dget_eq_none_iff] at hv
    symm
    rw [dget_eq_none_iff]
    intro hmem
    exact hv ((h.map Prod.fst).mem_iff.mpr hmem)
  | some v =>
    symm
    exact (dget_eq_some_iff_mem hnd2).mpr (h.subset ((dget_eq_some_iff_mem hnd).mp hv))

theorem needsSyncB_iff (cutoff : Int) (e : Entry) :
    needsSyncB cutoff e = true
      ↔ e.last_synced = none
        ∨ (∃ s, e.last_synced = some s ∧ parseTime s = none)
        ∨ (∃ s t, e.last_synced = some s ∧ parseTime s = some t ∧ t < cutoff) := by
  cases hts : e.last_synced with
  | none => simp [needsSyncB, hts]
  | some ts =>
    cases ts with
    | valid t =>
      simp [needsSyncB, hts, parseTime]
    | invalid s => simp [needsSyncB, hts, parseTime]

theorem mem_findProjectsNeedingSync {now hours : Int} {L : Ledger} {k : String}
    {e : Entry} :
    (k, e) ∈ findProjectsNeedingSync now hours L
      ↔ (k, e) ∈ L.projects ∧ needsSyncB (now - hours * 3600) e = true := by
  simp [findProjectsNeedingSync, List.mem_filter]

/-! ### Claim theorems -/

/-- C1 (amended): path normalization is deterministic; any path whose
resolved absolute form lies under (or equals) the home directory normalizes
to a string beginning with the home-alias marker; the relative and absolute
forms of the same path normalize to the identical ledger key, so lookup
after add finds the entry across those two forms.  (The home-alias spelling
itself does not round-trip, since resolve does not expand a leading
tilde component; see the counterexample.) -/
theorem normalizeProjectPath_home_prefix_and_form_agreement
    (env : FS) (p : PPath) (r : List String) (now : Int) (S : List String)
    (L : Ledger) (h : env.home.isPrefixOf (p.resolve env) = true) :
    (∃ t, normalizeProjectPath env p = "~" ++ t)
    ∧ normalizeProjectPath env (.relative r)
        = normalizeProjectPath env (.absolute (env.cwd ++ r))
    ∧ getProjectInfo env (.relative r)
        (addProject env now (.absolute (env.cwd ++ r)) S L)
      = some { environment_sets := some S,
               last_synced := some (TimeStr.valid now) } := by
  refine ⟨?_, rfl, ?_⟩
  · refine ⟨String.join (((p.resolve env).drop env.home.length).map
      (fun c => "/" ++ c)), ?_⟩
    simp [normalizeProjectPath, h, renderTilde]
  · show dget _ (dinsert _ _ _) = _
    rw [normalize_relative_eq_absolute]
    exact dget_dinsert_self _ _ _

/-- Witness for C1's theorem at a concrete environment and path. -/
theorem normalizeProjectPath_home_prefix_witness :
    (FS.mk ["home", "u"] ["tmp"]).home.isPrefixOf
        (PPath.resolve (FS.mk ["home", "u"] ["tmp"])
          (PPath.absolute ["home", "u", "p"])) = true
    ∧ ((∃ t, normalizeProjectPath (FS.mk ["home", "u"] ["tmp"])
          (PPath.absolute ["home", "u", "p"]) = "~" ++ t)
       ∧ normalizeProjectPath (FS.mk ["home", "u"] ["tmp"]) (.relative ["a"])
           = normalizeProjectPath (FS.mk ["home", "u"] ["tmp"])
               (.absolute ((FS.mk ["home", "u"] ["tmp"]).cwd ++ ["a"]))
       ∧ getProjectInfo (FS.mk ["home", "u"] ["tmp"]) (.relative ["a"])
           (addProject (FS.mk ["home", "u"] ["tmp"]) 0
             (.absolute ((FS.mk ["home", "u"] ["tmp"]).cwd ++ ["a"])) ["e"]
             (Ledger.mk []))
         = some { environment_sets := some ["e"],
                  last_synced := some (TimeStr.valid 0) }) :=
  ⟨by decide,
   normalizeProjectPath_home_prefix_and_form_agreement
     (FS.mk ["home", "u"] ["tmp"]) (PPath.absolute ["home", "u", "p"])
     ["a"] 0 ["e"] (Ledger.mk []) (by decide)⟩

/-- C1 counterexample: normalizing the home-alias spelling of a path does
not yield the ledger key of its absolute form, because Path.resolve treats
the leading tilde as an ordinary component; a lookup by the alias spelling
after an add by the absolute form misses the entry. -/
theorem normalizeProjectPath_homeAlias_counterexample :
    normalizeProjectPath (FS.mk ["home", "u"] ["tmp"])
        (PPath.absolute ["home", "u", "p"]) = "~/p"
    ∧ normalizeProjectPath (FS.mk ["home", "u"] ["tmp"])
        (PPath.relative ["~", "p"]) = "/tmp/~/p"
    ∧ ("~/p" : String) ≠ "/tmp/~/p"
    ∧ getProjectInfo (FS.mk ["home", "u"] ["tmp"]) (PPath.relative ["~", "p"])
        (addProject (FS.mk ["home", "u"] ["tmp"]) 0
          (PPath.absolute ["home", "u", "p"]) ["e"] (Ledger.mk [])) = none := by
  decide

/-- C2: lookup immediately after add_project(P, S) returns an entry whose
environment-set list equals S and whose last_synced timestamp parses and is
not in the future of the lookup time; a second add_project on the same path
with a different list overwrites, leaving exactly one entry for that path,
carrying the new list — indeed the document is the one the second add alone
would have produced. -/
theorem addProject_lookup_and_overwrite (env : FS) (now now2 lookupNow : Int)
    (p : PPath) (S S2 : List String) (L : Ledger)
    (hle : now ≤ lookupNow)
    (hnd : (L.projects.map Prod.fst).Nodup) :
    (∃ e, getProjectInfo env p (addProject env now p S L) = some e
       ∧ e.environment_sets = some S
       ∧ ∃ ts t, e.last_synced = some ts ∧ parseTime ts = some t ∧ t ≤ lookupNow)
    ∧ ((addProject env now2 p S2 (addProject env now p S L)).projects.map
         Prod.fst).count (normalizeProjectPath env p) = 1
    ∧ getProjectInfo env p (addProject env now2 p S2 (addProject env now p S L))
        = some { environment_sets := some S2,
                 last_synced := some (TimeStr.valid now2) }
    ∧ addProject env now2 p S2 (addProject env now p S L)
        = addProject env now2 p S2 L := by
  have hkey : ∀ now1 S1 L1, (addProject env now1 p S1 L1).projects
      = dinsert (normalizeProjectPath env p)
          { environment_sets := some S1,
            last_synced := some (TimeStr.valid now1) } L1.projects :=
    fun _ _ _ => rfl
  have hover : addProject env now2 p S2 (addProject env now p S L)
      = addProject env now2 p S2 L := by
    show Ledger.mk _ = Ledger.mk _
    rw [hkey, dinsert_dinsert_same]
  refine ⟨?_, ?_, ?_, hover⟩
  · refine ⟨_, dget_dinsert_self _ _ _, rfl, TimeStr.valid now, now, rfl, rfl, hle⟩
  · rw [hover, hkey]
    exact count_keys_dinsert _ _ hnd
  · rw [hover]
    exact dget_dinsert_self _ _ _

/-- Witness for C2's theorem at a concrete path and environment. -/
theorem addProject_lookup_and_overwrite_witness :
    ((1 : Int) ≤ 5 ∧ ((Ledger.mk []).projects.map Prod.fst).Nodup)
    ∧ ((∃ e, getProjectInfo (FS.mk ["h"] ["c"]) (PPath.absolute ["q"])
           (addProject (FS.mk ["h"] ["c"]) 1 (PPath.absolute ["q"]) ["a"]
             (Ledger.mk [])) = some e
         ∧ e.environment_sets = some ["a"]
         ∧ ∃ ts t, e.last_synced = some ts ∧ parseTime ts = some t ∧ t ≤ 5)
       ∧ ((addProject (FS.mk ["h"] ["c"]) 2 (PPath.absolute ["q"]) ["b"]
             (addProject (FS.mk ["h"] ["c"]) 1 (PPath.absolute ["q"]) ["a"]
               (Ledger.mk []))).projects.map Prod.fst).count
           (normalizeProjectPath (FS.mk ["h"] ["c"]) (PPath.absolute ["q"])) = 1
       ∧ getProjectInfo (FS.mk ["h"] ["c"]) (PPath.absolute ["q"])
           (addProject (FS.mk ["h"] ["c"]) 2 (PPath.absolute ["q"]) ["b"]
             (addProject (FS.mk ["h"] ["c"]) 1 (PPath.absolute ["q"]) ["a"]
               (Ledger.mk [])))
           = some { environment_sets := some ["b"],
                    last_synced := some (TimeStr.valid 2) }
       ∧ addProject (FS.mk ["h"] ["c"]) 2 (PPath.absolute ["q"]) ["b"]
           (addProject (FS.mk ["h"] ["c"]) 1 (PPath.absolute ["q"]) ["a"]
             (Ledger.mk []))
           = addProject (FS.mk ["h"] ["c"]) 2 (PPath.absolute ["q"]) ["b"]
             (Ledger.mk [])) :=
  ⟨⟨by decide, by decide⟩,
   addProject_lookup_and_overwrite (FS.mk ["h"] ["c"]) 1 2 5
     (PPath.absolute ["q"]) ["a"] ["b"] (Ledger.mk []) (by decide) (by decide)⟩

/-- C3 counterexample: two concrete corrupt backing files on which the
claimed behavior fails.  A file whose YAML parses to the string "projects"
is a non-mapping value, yet _load_mapping returns that string unchanged (the
Python test "projects" in data is a substring test on a string, so the
empty-dict assignment that would raise is skipped) — not an empty ledger,
and with no warning.  A file parsing to a falsy non-mapping (e.g. an empty
list) does yield the empty ledger, but emits no warning. -/
theorem loadMapping_corrupt_counterexample :
    loadMapping (FileState.strValue "projects")
      = { result := PyValue.str "projects", warned := false }
    ∧ PyValue.str "projects" ≠ PyValue.mapping []
    ∧ loadMapping FileState.falsyValue
      = { result := PyValue.mapping [], warned := false } := by
  decide

/-- C3 (amended): _load_mapping is total (no exception propagates); a
missing file yields the empty ledger silently; an unreadable file yields the
empty ledger with a warning; a falsy parse result yields the empty ledger
silently; every other file state yields either the empty ledger, the stored
projects dict of a parsed mapping, or — for a truthy non-mapping on which
the containment test "projects" in data succeeds — the non-mapping parse
result returned unchanged without a warning. -/
theorem loadMapping_tolerant :
    loadMapping FileState.missing = { result := PyValue.mapping [], warned := false }
    ∧ loadMapping FileState.unreadable = { result := PyValue.mapping [], warned := true }
    ∧ loadMapping FileState.falsyValue = { result := PyValue.mapping [], warned := false }
    ∧ ∀ fs : FileState,
        (loadMapping fs).result = PyValue.mapping []
        ∨ (∃ ps, fs = FileState.mappingContent (some ps)
             ∧ (loadMapping fs).result = PyValue.mapping ps
             ∧ (loadMapping fs).warned = false)
        ∨ (∃ s, fs = FileState.strValue s ∧ containsSub s "projects" = true
             ∧ (loadMapping fs).result = PyValue.str s
             ∧ (loadMapping fs).warned = false)
        ∨ (fs = FileState.listValue true
             ∧ (loadMapping fs).result = PyValue.list true
             ∧ (loadMapping fs).warned = false) := by
  refine ⟨rfl, rfl, rfl, ?_⟩
  intro fs
  cases fs with
  | missing => exact Or.inl rfl
  | unreadable => exact Or.inl rfl
  | falsyValue => exact Or.inl rfl
  | strValue s =>
    by_cases h : containsSub s "projects"
    · exact Or.inr (Or.inr (Or.inl ⟨s, rfl, h, by simp [loadMapping, h], by simp [loadMapping, h]⟩))
    · simp only [loadMapping, h]
      exact Or.inl (by simp [Bool.false_eq_true, if_neg])
  | listValue b =>
    cases b with
    | false => exact Or.inl rfl
    | true => exact Or.inr (Or.inr (Or.inr ⟨rfl, rfl, rfl⟩))
  | mappingContent pv =>
    cases pv with
    | none => exact Or.inl rfl
    | some ps => exact Or.inr (Or.inl ⟨ps, rfl, rfl, rfl⟩)

/-- C4: saving and reloading round-trips all entries: the loaded projects
dict holds exactly the same (path, entry) pairs — hence the same key set,
environment-set lists and timestamp strings — as the document before the
save, and the load emits no warning. -/
theorem save_load_roundtrip (parentDirExisted : Bool) (L : Ledger)
    (hnd : (L.projects.map Prod.fst).Nodup) :
    ∃ ps, (loadMapping (saveMapping parentDirExisted L).file).result
        = PyValue.mapping ps
      ∧ (loadMapping (saveMapping parentDirExisted L).file).warned = false
      ∧ (∀ k e, (k, e) ∈ ps ↔ (k, e) ∈ L.projects)
      ∧ (∀ k, dget k ps = dget k L.projects)
      ∧ (∀ k, k ∈ ps.map Prod.fst ↔ k ∈ L.projects.map Prod.fst) := by
  refine ⟨L.projects.insertionSort keyLE, rfl, rfl, ?_, ?_, ?_⟩
  · intro k e
    exact (List.perm_insertionSort keyLE L.projects).mem_iff
  · intro k
    have hp : (L.projects.insertionSort keyLE).Perm L.projects :=
      List.perm_insertionSort keyLE L.projects
    exact dget_eq_of_perm hp (((hp.map Prod.fst).nodup_iff).mpr hnd) k
  · intro k
    exact ((List.perm_insertionSort keyLE L.projects).map Prod.fst).mem_iff

/-- Witness for C4's theorem on a concrete two-entry document. -/
theorem save_load_roundtrip_witness :
    (((Ledger.mk [("/b", Entry.mk (some ["x"]) none),
        ("/a", Entry.mk (some ["y"]) (some (TimeStr.valid 7)))]).projects.map
          Prod.fst).Nodup)
    ∧ ∃ ps, (loadMapping (saveMapping true
          (Ledger.mk [("/b", Entry.mk (some ["x"]) none),
            ("/a", Entry.mk (some ["y"]) (some (TimeStr.valid 7)))])).file).result
        = PyValue.mapping ps
      ∧ (loadMapping (saveMapping true
          (Ledger.mk [("/b", Entry.mk (some ["x"]) none),
            ("/a", Entry.mk (some ["y"]) (some (TimeStr.valid 7)))])).file).warned
        = false
      ∧ (∀ k e, (k, e) ∈ ps
          ↔ (k, e) ∈ (Ledger.mk [("/b", Entry.mk (some ["x"]) none),
              ("/a", Entry.mk (some ["y"]) (some (TimeStr.valid 7)))]).projects)
      ∧ (∀ k, dget k ps
          = dget k (Ledger.mk [("/b", Entry.mk (some ["x"]) none),
              ("/a", Entry.mk (some ["y"]) (some (TimeStr.valid 7)))]).projects)
      ∧ (∀ k, k ∈ ps.map Prod.fst
          ↔ k ∈ ((Ledger.mk [("/b", Entry.mk (some ["x"]) none),
              ("/a", Entry.mk (some ["y"]) (some (TimeStr.valid 7)))]).projects.map
                Prod.fst)) :=
  ⟨by decide,
   save_load_roundtrip true
     (Ledger.mk [("/b", Entry.mk (some ["x"]) none),
       ("/a", Entry.mk (some ["y"]) (some (TimeStr.valid 7)))]) (by decide)⟩

/-- C7: save always writes a mapping whose projects dict holds the same
entries reordered into ascending path order, stores that sorted dict back
into the in-memory document, leaves the written document with the
"projects" key even for an empty ledger, and leaves the backing file's
parent directory existing whether or not it existed before. -/
theorem saveMapping_sorted_projects_key (parentDirExisted : Bool) (L : Ledger) :
    (∃ ps, (saveMapping parentDirExisted L).file = FileState.mappingContent (some ps)
      ∧ ps.Perm L.projects
      ∧ (ps.map Prod.fst).Sorted (· ≤ ·)
      ∧ (saveMapping parentDirExisted L).ledger.projects = ps)
    ∧ (saveMapping parentDirExisted L).parentDirExists = true
    ∧ (saveMapping parentDirExisted (Ledger.mk [])).file
        = FileState.mappingContent (some []) := by
  refine ⟨⟨L.projects.insertionSort keyLE, rfl,
    List.perm_insertionSort keyLE L.projects, ?_, rfl⟩, rfl, rfl⟩
  have hs : (L.projects.insertionSort keyLE).Sorted keyLE :=
    List.sorted_insertionSort keyLE L.projects
  exact List.pairwise_map.mpr hs

/-- C5: find_projects_needing_sync returns exactly the entries whose
timestamp is absent, unparsable, or strictly older than the cutoff
now - hours * 3600, each annotated with its path, and no others; over a
48-hour-old, a 12-hour-old and a timestampless entry with a 24-hour
threshold it returns exactly the 48-hour-old and the timestampless entries,
excluding the 12-hour-old one. -/
theorem findProjectsNeedingSync_exact (now hours : Int) (L : Ledger)
    (k : String) (e : Entry) :
    ((k, e) ∈ findProjectsNeedingSync now hours L
      ↔ (k, e) ∈ L.projects
        ∧ (e.last_synced = none
           ∨ (∃ s, e.last_synced = some s ∧ parseTime s = none)
           ∨ (∃ s t, e.last_synced = some s ∧ parseTime s = some t
                ∧ t < now - hours * 3600)))
    ∧ findProjectsNeedingSync 200000 24
        (Ledger.mk
          [("/old-project", Entry.mk (some ["env_a"]) (some (TimeStr.valid 27200))),
           ("/recent-project", Entry.mk (some ["env_b"]) (some (TimeStr.valid 156800))),
           ("/no-timestamp-project", Entry.mk (some ["env_c"]) none)])
      = [("/old-project", Entry.mk (some ["env_a"]) (some (TimeStr.valid 27200))),
         ("/no-timestamp-project", Entry.mk (some ["env_c"]) none)] := by
  constructor
  · rw [mem_findProjectsNeedingSync, needsSyncB_iff]
  · decide

theorem keys_filter_fst {β : Type} (p : String → Bool) (l : List (String × β)) :
    (l.filter (fun kv => p kv.1)).map Prod.fst = (l.map Prod.fst).filter p := by
  induction l with
  | nil => rfl
  | cons hd tl ih =>
    obtain ⟨k1, v1⟩ := hd
    by_cases h : p k1
    · simp [List.filter_cons, h, ih]
    · simp only [Bool.not_eq_true] at h
      simp [List.filter_cons, h, ih]

/-- C6: cleanup_missing_projects removes exactly the entries whose stored
key, after home-alias expansion, does not exist on the filesystem; keeps
every entry whose expanded key exists, unchanged and in order; and the
returned list is exactly the keys that were deleted.  The concrete instance
mirrors the spec scenario: an existing directory's entry survives while two
entries for nonexistent paths (one of them home-aliased) are removed and
returned. -/
theorem cleanupMissingProjects_exact (home : List String)
    (fsExists : String → Bool) (L : Ledger) :
    (∀ k e, (k, e) ∈ (cleanupMissingProjects home fsExists L).1.projects
       ↔ (k, e) ∈ L.projects ∧ fsExists (expanduser home k) = true)
    ∧ (cleanupMissingProjects home fsExists L).1.projects.Sublist L.projects
    ∧ (∀ k, k ∈ (cleanupMissingProjects home fsExists L).2
       ↔ k ∈ L.projects.map Prod.fst ∧ fsExists (expanduser home k) = false)
    ∧ (∀ k, k ∈ (cleanupMissingProjects home fsExists L).2
       ↔ k ∈ L.projects.map Prod.fst
         ∧ k ∉ (cleanupMissingProjects home fsExists L).1.projects.map Prod.fst)
    ∧ cleanupMissingProjects ["home", "u"] (fun s => s == "/tmp/exists")
        (Ledger.mk
          [("/tmp/exists", Entry.mk (some ["env_a"]) none),
           ("/non/existing/path1", Entry.mk (some ["env_b"]) none),
           ("~/gone", Entry.mk (some ["env_c"]) none)])
      = (Ledger.mk [("/tmp/exists", Entry.mk (some ["env_a"]) none)],
         ["/non/existing/path1", "~/gone"]) := by
  refine ⟨?_, List.filter_sublist _, ?_, ?_, by decide⟩
  · intro k e
    simp [cleanupMissingProjects, List.mem_filter]
  · intro k
    simp [cleanupMissingProjects, List.mem_filter]
  · intro k
    have hks : (cleanupMissingProjects home fsExists L).1.projects.map Prod.fst
        = (L.projects.map Prod.fst).filter (fun k1 => fsExists (expanduser home k1)) :=
      keys_filter_fst (fun k1 => fsExists (expanduser home k1)) L.projects
    show k ∈ (L.projects.map Prod.fst).filter
        (fun k1 => !fsExists (expanduser home k1)) ↔ _
    rw [hks]
    simp only [List.mem_filter, Bool.not_eq_eq_eq_not, Bool.not_true]
    constructor
    · rintro ⟨hm, hfe⟩
      exact ⟨hm, fun hc => by rw [hc.2] at hfe; cases hfe⟩
    · rintro ⟨hm, hne⟩
      refine ⟨hm, ?_⟩
      cases hfe : fsExists (expanduser home k)
      · rfl
      · exact absurd ⟨hm, hfe⟩ hne

theorem dget_bump_self (k : String) (u : List (String × Nat)) :
    dget k (bump k u) = some ((dget k u).getD 0 + 1) := by
  induction u with
  | nil => simp [bump, dget]
  | cons hd tl ih =>
    obtain ⟨k1, n⟩ := hd
    by_cases h : k1 = k
    · simp [bump, h, dget]
    · simp [bump, h, dget, ih]

theorem dget_bump_ne {k n : String} (u : List (String × Nat)) (h : n ≠ k) :
    dget n (bump k u) = dget n u := by
  have h0 : ¬k = n := fun hh => h hh.symm
  induction u with
  | nil => simp [bump, dget, h0]
  | cons hd tl ih =>
    obtain ⟨k1, m⟩ := hd
    by_cases h1 : k1 = k
    · subst h1
      simp [bump, dget, h0]
    · simp only [bump, if_neg h1, dget]
      by_cases h2 : k1 = n
      · simp [h2]
      · simp [h2, ih]

theorem mem_keys_bump (k n : String) (u : List (String × Nat)) :
    n ∈ (bump k u).map Prod.fst ↔ n = k ∨ n ∈ u.map Prod.fst := by
  induction u with
  | nil => simp [bump]
  | cons hd tl ih =>
    obtain ⟨k1, m⟩ := hd
    by_cases h : k1 = k
    · subst h
      simp [bump]
    · simp [bump, h, ih]
      tauto

theorem dget_bumpAll (n : String) (names : List String) (u : List (String × Nat)) :
    (dget n (bumpAll names u)).getD 0 = (dget n u).getD 0 + names.count n := by
  induction names generalizing u with
  | nil => simp [bumpAll]
  | cons a as ih =>
    show (dget n (bumpAll as (bump a u))).getD 0 = _
    rw [ih]
    by_cases h : a = n
    · subst h
      rw [dget_bump_self]
      simp [List.count_cons]
      omega
    · rw [dget_bump_ne u (fun hh => h hh.symm)]
      have : ¬(a == n) = true := by simpa using h
      simp [List.count_cons, this]

theorem mem_keys_bumpAll (n : String) (names : List String)
    (u : List (String × Nat)) :
    n ∈ (bumpAll names u).map Prod.fst ↔ n ∈ u.map Prod.fst ∨ n ∈ names := by
  induction names generalizing u with
  | nil => simp [bumpAll]
  | cons a as ih =>
    show n ∈ (bumpAll as (bump a u)).map Prod.fst ↔ _
    rw [ih, mem_keys_bump]
    simp [List.mem_cons]
    tauto

theorem dget_usageFold (n : String) (entries : List (String × Entry))
    (u : List (String × Nat)) :
    (dget n (entries.foldl (fun u1 kv => bumpAll (kv.2.environment_sets.getD []) u1) u)).getD 0
      = (dget n u).getD 0
        + (entries.map (fun kv => (kv.2.environment_sets.getD []).count n)).sum := by
  induction entries generalizing u with
  | nil => simp
  | cons hd tl ih =>
    simp only [List.foldl_cons, List.map_cons, List.sum_cons]
    rw [ih, dget_bumpAll]
    omega

theorem mem_keys_usageFold (n : String) (entries : List (String × Entry))
    (u : List (String × Nat)) :
    n ∈ ((entries.foldl (fun u1 kv => bumpAll (kv.2.environment_sets.getD []) u1) u).map
        Prod.fst)
      ↔ n ∈ u.map Prod.fst
        ∨ ∃ kv ∈ entries, n ∈ kv.2.environment_sets.getD [] := by
  induction entries generalizing u with
  | nil => simp
  | cons hd tl ih =>
    simp only [List.foldl_cons]
    rw [ih, mem_keys_bumpAll, List.exists_mem_cons_iff]
    tauto

theorem sum_counts_eq_length_filter (n : String) (entries : List (String × Entry))
    (hdup : ∀ kv ∈ entries, (kv.2.environment_sets.getD []).Nodup) :
    (entries.map (fun kv => (kv.2.environment_sets.getD []).count n)).sum
      = (entries.filter (fun kv => (kv.2.environment_sets.getD []).contains n)).length := by
  induction entries with
  | nil => simp
  | cons hd tl ih =>
    have hd1 : (hd.2.environment_sets.getD []).Nodup := hdup hd (by simp)
    have ih1 := ih (fun kv hkv => hdup kv (List.mem_cons_of_mem _ hkv))
    by_cases hm : n ∈ hd.2.environment_sets.getD []
    · have hc : (hd.2.environment_sets.getD []).count n = 1 :=
        List.count_eq_one_of_mem hd1 hm
      simp [List.filter_cons, hm, hc, ih1]
      omega
    · have hc : (hd.2.environment_sets.getD []).count n = 0 :=
        List.count_eq_zero_of_not_mem hm
      simp [List.filter_cons, hm, hc, ih1]

/-- C8 counterexample: usage counts occurrences, not distinct projects.  A
single project whose environment_sets list repeats a name is counted once
per occurrence: the usage value for that name is 2 although only one
project's active set contains it. -/
theorem getEnvironmentSetUsage_duplicates_counterexample :
    getEnvironmentSetUsage (Ledger.mk [("/p", Entry.mk (some ["a", "a"]) none)])
      = [("a", 2)]
    ∧ ((Ledger.mk [("/p", Entry.mk (some ["a", "a"]) none)]).projects.filter
        (fun kv => (kv.2.environment_sets.getD []).contains "a")).length = 1 := by
  decide

/-- C8 (amended): get_environment_set_usage maps each name to its total
number of occurrences across all entries, which equals the number of
projects whose active set contains the name whenever no entry's list
repeats a name; its keys are exactly the names appearing in at least one
entry; the concrete three-project instance yields a: 2, b: 2, c: 1. -/
theorem getEnvironmentSetUsage_counts (L : Ledger)
    (hdup : ∀ kv ∈ L.projects, (kv.2.environment_sets.getD []).Nodup) :
    (∀ n : String,
       (dget n (getEnvironmentSetUsage L)).getD 0
         = (L.projects.filter
             (fun kv => (kv.2.environment_sets.getD []).contains n)).length)
    ∧ (∀ n : String, n ∈ (getEnvironmentSetUsage L).map Prod.fst
         ↔ ∃ kv ∈ L.projects, n ∈ kv.2.environment_sets.getD [])
    ∧ getEnvironmentSetUsage (Ledger.mk
        [("/project1", Entry.mk (some ["a", "b"]) none),
         ("/project2", Entry.mk (some ["b", "c"]) none),
         ("/project3", Entry.mk (some ["a"]) none)])
      = [("a", 2), ("b", 2), ("c", 1)] := by
  refine ⟨?_, ?_, by decide⟩
  · intro n
    show (dget n (L.projects.foldl
        (fun u kv => bumpAll (kv.2.environment_sets.getD []) u) [])).getD 0 = _
    rw [dget_usageFold]
    simp [dget, sum_counts_eq_length_filter n L.projects hdup]
  · intro n
    show n ∈ ((L.projects.foldl
        (fun u kv => bumpAll (kv.2.environment_sets.getD []) u) []).map Prod.fst) ↔ _
    rw [mem_keys_usageFold]
    simp

/-- Witness for C8's theorem on the concrete three-project document. -/
theorem getEnvironmentSetUsage_counts_witness :
    (∀ kv ∈ (Ledger.mk
        [("/project1", Entry.mk (some ["a", "b"]) none),
         ("/project2", Entry.mk (some ["b", "c"]) none),
         ("/project3", Entry.mk (some ["a"]) none)]).projects,
       (kv.2.environment_sets.getD []).Nodup)
    ∧ ((∀ n : String,
         (dget n (getEnvironmentSetUsage (Ledger.mk
             [("/project1", Entry.mk (some ["a", "b"]) none),
              ("/project2", Entry.mk (some ["b", "c"]) none),
              ("/project3", Entry.mk (some ["a"]) none)]))).getD 0
           = ((Ledger.mk
               [("/project1", Entry.mk (some ["a", "b"]) none),
                ("/project2", Entry.mk (some ["b", "c"]) none),
                ("/project3", Entry.mk (some ["a"]) none)]).projects.filter
               (fun kv => (kv.2.environment_sets.getD []).contains n)).length)
       ∧ (∀ n : String, n ∈ (getEnvironmentSetUsage (Ledger.mk
             [("/project1", Entry.mk (some ["a", "b"]) none),
              ("/project2", Entry.mk (some ["b", "c"]) none),
              ("/project3", Entry.mk (some ["a"]) none)])).map Prod.fst
           ↔ ∃ kv ∈ (Ledger.mk
               [("/project1", Entry.mk (some ["a", "b"]) none),
                ("/project2", Entry.mk (some ["b", "c"]) none),
                ("/project3", Entry.mk (some ["a"]) none)]).projects,
               n ∈ kv.2.environment_sets.getD [])
       ∧ getEnvironmentSetUsage (Ledger.mk
           [("/project1", Entry.mk (some ["a", "b"]) none),
            ("/project2", Entry.mk (some ["b", "c"]) none),
            ("/project3", Entry.mk (some ["a"]) none)])
         = [("a", 2), ("b", 2), ("c", 1)]) :=
  ⟨by decide,
   getEnvironmentSetUsage_counts (Ledger.mk
     [("/project1", Entry.mk (some ["a", "b"]) none),
      ("/project2", Entry.mk (some ["b", "c"]) none),
      ("/project3", Entry.mk (some ["a"]) none)]) (by decide)⟩

theorem nodup_keys_applyOp (env : FS) (op : LedgerOp) {L : Ledger}
    (h : (L.projects.map Prod.fst).Nodup) :
    ((applyOp env op L).projects.map Prod.fst).Nodup := by
  cases op with
  | add now p sets => exact nodup_keys_dinsert _ _ h
  | remove p => exact nodup_keys_derase _ h
  | touch now p =>
    show ((dmodify _ _ L.projects).map Prod.fst).Nodup
    rw [keys_dmodify]
    exact h
  | cleanup fsExists =>
    show ((L.projects.filter _).map Prod.fst).Nodup
    rw [keys_filter_fst (fun k1 => fsExists (expanduser env.home k1)) L.projects]
    exact h.filter _

theorem nodup_keys_applyOps (env : FS) (ops : List LedgerOp) {L : Ledger}
    (h : (L.projects.map Prod.fst).Nodup) :
    ((applyOps env ops L).projects.map Prod.fst).Nodup := by
  induction ops generalizing L with
  | nil => exact h
  | cons op rest ih => exact ih (nodup_keys_applyOp env op h)

/-- C9: starting from any document with unique keys (as any YAML mapping or
any sequence of these operations yields), every sequence of mutating
operations preserves the at-most-one-entry-per-normalized-path invariant:
the keys, which are the normalized paths, stay unique, so every present key
has exactly one entry; moreover add never removes a key and touch leaves
the key list unchanged — only remove and cleanup delete entries. -/
theorem ledger_one_entry_per_path (env : FS) (ops : List LedgerOp) (L : Ledger)
    (hnd : (L.projects.map Prod.fst).Nodup) :
    ((applyOps env ops L).projects.map Prod.fst).Nodup
    ∧ (∀ k, k ∈ (applyOps env ops L).projects.map Prod.fst →
        ((applyOps env ops L).projects.map Prod.fst).count k = 1)
    ∧ (∀ now p sets k, k ∈ L.projects.map Prod.fst →
        k ∈ (applyOp env (.add now p sets) L).projects.map Prod.fst)
    ∧ (∀ now p, (applyOp env (.touch now p) L).projects.map Prod.fst
        = L.projects.map Prod.fst) := by
  refine ⟨nodup_keys_applyOps env ops hnd, ?_, ?_, ?_⟩
  · intro k hk
    exact List.count_eq_one_of_mem (nodup_keys_applyOps env ops hnd) hk
  · intro now p sets k hk
    show k ∈ (dinsert (normalizeProjectPath env p) _ L.projects).map Prod.fst
    by_cases hm : normalizeProjectPath env p ∈ L.projects.map Prod.fst
    · rw [keys_dinsert_mem _ hm]
      exact hk
    · rw [keys_dinsert_not_mem _ hm]
      exact List.mem_append_left _ hk
  · intro now p
    exact keys_dmodify _ _ _

/-- Witness for C9's theorem over a concrete operation sequence. -/
theorem ledger_one_entry_per_path_witness :
    (((Ledger.mk [("/seed", Entry.mk (some ["a"]) none)]).projects.map
        Prod.fst).Nodup)
    ∧ (((applyOps (FS.mk ["h"] ["c"])
          [LedgerOp.add 1 (PPath.absolute ["q"]) ["a"],
           LedgerOp.touch 2 (PPath.absolute ["q"]),
           LedgerOp.remove (PPath.absolute ["q"]),
           LedgerOp.cleanup (fun _ => true)]
          (Ledger.mk [("/seed", Entry.mk (some ["a"]) none)])).projects.map
            Prod.fst).Nodup
       ∧ (∀ k, k ∈ (applyOps (FS.mk ["h"] ["c"])
            [LedgerOp.add 1 (PPath.absolute ["q"]) ["a"],
             LedgerOp.touch 2 (PPath.absolute ["q"]),
             LedgerOp.remove (PPath.absolute ["q"]),
             LedgerOp.cleanup (fun _ => true)]
            (Ledger.mk [("/seed", Entry.mk (some ["a"]) none)])).projects.map
              Prod.fst →
          ((applyOps (FS.mk ["h"] ["c"])
            [LedgerOp.add 1 (PPath.absolute ["q"]) ["a"],
             LedgerOp.touch 2 (PPath.absolute ["q"]),
             LedgerOp.remove (PPath.absolute ["q"]),
             LedgerOp.cleanup (fun _ => true)]
            (Ledger.mk [("/seed", Entry.mk (some ["a"]) none)])).projects.map
              Prod.fst).count k = 1)
       ∧ (∀ now p sets k,
            k ∈ (Ledger.mk [("/seed", Entry.mk (some ["a"]) none)]).projects.map
              Prod.fst →
            k ∈ (applyOp (FS.mk ["h"] ["c"]) (.add now p sets)
              (Ledger.mk [("/seed", Entry.mk (some ["a"]) none)])).projects.map
                Prod.fst)
       ∧ (∀ now p,
            (applyOp (FS.mk ["h"] ["c"]) (.touch now p)
              (Ledger.mk [("/seed", Entry.mk (some ["a"]) none)])).projects.map
                Prod.fst
              = (Ledger.mk [("/seed", Entry.mk (some ["a"]) none)]).projects.map
                  Prod.fst)) :=
  ⟨by decide,
   ledger_one_entry_per_path (FS.mk ["h"] ["c"])
     [LedgerOp.add 1 (PPath.absolute ["q"]) ["a"],
      LedgerOp.touch 2 (PPath.absolute ["q"]),
      LedgerOp.remove (PPath.absolute ["q"]),
      LedgerOp.cleanup (fun _ => true)]
     (Ledger.mk [("/seed", Entry.mk (some ["a"]) none)]) (by decide)⟩

/-- C10: an entry whose environment_sets field is absent never makes the
query operations raise: get_projects_by_environment_set omits it from every
result (the document behaves as if the entry were not there),
get_environment_set_usage takes no counts from it, and
find_projects_needing_sync still classifies it purely by its timestamp. -/
theorem missing_environment_sets_safe (L : Ledger)
    (pre post : List (String × Entry)) (k : String) (ts : Option TimeStr)
    (h : L.projects = pre ++ (k, Entry.mk none ts) :: post) :
    (∀ s, getProjectsByEnvironmentSet s L
       = getProjectsByEnvironmentSet s (Ledger.mk (pre ++ post)))
    ∧ getEnvironmentSetUsage L = getEnvironmentSetUsage (Ledger.mk (pre ++ post))
    ∧ (∀ now hours, (k, Entry.mk none ts) ∈ findProjectsNeedingSync now hours L
        ↔ (ts = none ∨ (∃ s0, ts = some s0 ∧ parseTime s0 = none)
           ∨ (∃ s0 t, ts = some s0 ∧ parseTime s0 = some t
                ∧ t < now - hours * 3600))) := by
  refine ⟨?_, ?_, ?_⟩
  · intro s
    simp [getProjectsByEnvironmentSet, h, List.filter_append, List.filter_cons]
  · simp [getEnvironmentSetUsage, h, List.foldl_append, bumpAll]
  · intro now hours
    rw [mem_findProjectsNeedingSync, needsSyncB_iff]
    have hm : (k, Entry.mk none ts) ∈ L.projects := by
      rw [h]
      exact List.mem_append_right _ (List.mem_cons_self _ _)
    simp [hm]

/-- Witness for C10's theorem on a concrete document with one field-less
entry. -/
theorem missing_environment_sets_safe_witness :
    ((Ledger.mk [("/x", Entry.mk (some ["a"]) none),
        ("/y", Entry.mk none (some (TimeStr.invalid "bad")))]).projects
      = [("/x", Entry.mk (some ["a"]) none)]
        ++ ("/y", Entry.mk none (some (TimeStr.invalid "bad"))) :: [])
    ∧ ((∀ s, getProjectsByEnvironmentSet s
          (Ledger.mk [("/x", Entry.mk (some ["a"]) none),
            ("/y", Entry.mk none (some (TimeStr.invalid "bad")))])
        = getProjectsByEnvironmentSet s
            (Ledger.mk ([("/x", Entry.mk (some ["a"]) none)] ++ [])))
       ∧ getEnvironmentSetUsage
           (Ledger.mk [("/x", Entry.mk (some ["a"]) none),
             ("/y", Entry.mk none (some (TimeStr.invalid "bad")))])
         = getEnvironmentSetUsage
             (Ledger.mk ([("/x", Entry.mk (some ["a"]) none)] ++ []))
       ∧ (∀ now hours,
            ("/y", Entry.mk none (some (TimeStr.invalid "bad")))
              ∈ findProjectsNeedingSync now hours
                  (Ledger.mk [("/x", Entry.mk (some ["a"]) none),
                    ("/y", Entry.mk none (some (TimeStr.invalid "bad")))])
            ↔ ((some (TimeStr.invalid "bad") : Option TimeStr) = none
               ∨ (∃ s0, (some (TimeStr.invalid "bad") : Option TimeStr) = some s0
                    ∧ parseTime s0 = none)
               ∨ (∃ s0 t, (some (TimeStr.invalid "bad") : Option TimeStr) = some s0
                    ∧ parseTime s0 = some t ∧ t < now - hours * 3600)))) :=
  ⟨rfl,
   missing_environment_sets_safe
     (Ledger.mk [("/x", Entry.mk (some ["a"]) none),
       ("/y", Entry.mk none (some (TimeStr.invalid "bad")))])
     [("/x", Entry.mk (some ["a"]) none)] [] "/y"
     (some (TimeStr.invalid "bad")) rfl⟩
